import Mathlib

/-!
Verification of the hydramq message store: a shallow embedding of the
message data model, the binary codecs, the size calculator and the
file-backed segment store, together with theorems settling the frozen
claims about the natural-language specification.

Bytes are modelled as `Nat` values (each produced byte is `< 256`), byte
buffers as `List Nat`.  Machine integers (`i32`, `i64`, `u32`) are
modelled as `Int`/`Nat` with explicit reduction modulo `2^32` / `2^64`
where the code truncates.  Panics in the Rust source (unwrap/expect on
decode failures, `read_exact` on a short file) are modelled as
`Except.error`.  Floating point values are carried as their raw bit
patterns, since the codecs only move the bytes.  Rust `String` values are
carried as their UTF-8 byte sequences; the UTF-8 validation performed by
`read_to_string`/`str::from_utf8` is not re-checked (every buffer a claim
evaluates is produced by the encoder from a valid string, where the check
succeeds).
-/

/-- Big-endian byte representation: `bytesBE k n` is the `k`-byte
big-endian encoding of `n % 2^(8*k)`. -/
def bytesBE : Nat → Nat → List Nat
  | 0, _ => []
  | k + 1, n => (n / 2 ^ (8 * k)) % 256 :: bytesBE k n

/-- Little-endian byte representation of `n % 2^(8*k)`. -/
def bytesLE (k n : Nat) : List Nat := (bytesBE k n).reverse

/-- Value of a byte list read big-endian. -/
def valBE (l : List Nat) : Nat := l.foldl (fun a b => a * 256 + b) 0

/-- Value of a byte list read little-endian. -/
def valLE (l : List Nat) : Nat := valBE l.reverse

/-- Two's-complement reduction of an `i32`/`i64` value to its unsigned
bit pattern: `toUnsigned w i = i mod 2^w` as a natural number. -/
def toUnsigned (w : Nat) (i : Int) : Nat := (i % (2 ^ w : Nat)).toNat

/-- Signed reading of a `w`-bit pattern (two's complement). -/
def toSigned (w : Nat) (n : Nat) : Int :=
  if n < 2 ^ (w - 1) then (n : Int) else (n : Int) - (2 ^ w : Nat)

/-- Encoding of an `i32` in big-endian byte order (`put_i32_be`). -/
def putI32BE (i : Int) : List Nat := bytesBE 4 (toUnsigned 32 i)

/-- Encoding of an `i64` in big-endian byte order (`put_i64_be`). -/
def putI64BE (i : Int) : List Nat := bytesBE 8 (toUnsigned 64 i)

/-- Whether an `Except` result is a success; a `false` result models a
Rust panic (`unwrap`/`expect`) or propagated fatal error. -/
def exceptOk {ε α : Type} : Except ε α → Bool
  | .ok _ => true
  | .error _ => false

/-!
## Data model of `src/message/mod.rs`

`Value`, `Map`, `List` and `Message` as used by the public codec
(`codec::encode_message` / `codec::decode_message`) and by the segment
store.  Map keys are strings (byte sequences); maps preserve insertion
order (`LinkedHashMap`).  The mutual inductive mirrors the nesting of
`Value::List(List)` and `Value::Map(Map)`.
-/

mutual
inductive ValueA : Type where
  | null : ValueA
  | str (s : List Nat) : ValueA
  | int64 (n : Int) : ValueA
  | int32 (n : Int) : ValueA
  | float32 (bits : Nat) : ValueA
  | float64 (bits : Nat) : ValueA
  | boolean (b : Bool) : ValueA
  | bytes (bs : List Nat) : ValueA
  | list (items : ListA) : ValueA
  | map (entries : MapA) : ValueA
  | uuid (bs : List Nat) : ValueA

inductive ListA : Type where
  | nil : ListA
  | cons (hd : ValueA) (tl : ListA) : ListA

inductive MapA : Type where
  | nil : MapA
  | cons (key : List Nat) (val : ValueA) (tl : MapA) : MapA
end

/-- Length of a `List` value (`List::len`). -/
def listALen : ListA → Nat
  | .nil => 0
  | .cons _ tl => listALen tl + 1

/-- Length of a `Map` value (`Map::len`). -/
def mapALen : MapA → Nat
  | .nil => 0
  | .cons _ _ tl => mapALen tl + 1

/-- Append a value at the end of a `List` (`ListBuilder::append`). -/
def listAAppend : ListA → ValueA → ListA
  | .nil, v => .cons v .nil
  | .cons hd tl, v => .cons hd (listAAppend tl v)

/-- Key membership in a `Map`. -/
def mapAHasKey : MapA → List Nat → Bool
  | .nil, _ => false
  | .cons k _ tl, key => if k = key then true else mapAHasKey tl key

/-- Insertion into a `LinkedHashMap`: an existing key keeps its position
and gets the new value, a new key is appended at the end. -/
def mapAInsert : MapA → List Nat → ValueA → MapA
  | .nil, key, v => .cons key v .nil
  | .cons k w tl, key, v =>
    if k = key then .cons k v tl else .cons k w (mapAInsert tl key v)

/-- The `Message` of `src/message/mod.rs`: insertion-ordered string-keyed
properties and an optional body. -/
structure MessageA : Type where
  properties : MapA
  body : Option ValueA

/-!
## Binary encoder of `src/codec/encoder.rs` (`BinaryMessageEncoder`)

All integers big-endian.  Flags bits (from `src/codec/util.rs`):
`HAS_TIMESTAMP = 1`, `HAS_HEADERS = 2`, `HAS_BODY = 4`,
`HAS_EXPIRATION = 8`, `HAS_CORRELATION_ID = 16`.  The encoder sets
`HAS_HEADERS` when the property map is non-empty and `HAS_BODY` when a
body is present.
-/

/-- `encode_string`: 4-byte big-endian length then the raw bytes. -/
def encodeStringA (s : List Nat) : List Nat := bytesBE 4 s.length ++ s

mutual
/-- `BinaryMessageEncoder::encode_value`: one tag byte then the payload.
Tags: 0 Null, 1 String, 2 Int32, 3 Int64, 4 Float32, 5 Float64,
6 Boolean, 7 Bytes, 8 List, 9 Map, 10 Uuid. -/
def encodeValueA : ValueA → List Nat
  | .null => [0]
  | .str s => 1 :: encodeStringA s
  | .int32 n => 2 :: putI32BE n
  | .int64 n => 3 :: putI64BE n
  | .float32 bits => 4 :: bytesBE 4 bits
  | .float64 bits => 5 :: bytesBE 8 bits
  | .boolean b => 6 :: [if b then 1 else 0]
  | .bytes bs => 7 :: (bytesBE 4 bs.length ++ bs)
  | .list l => 8 :: (bytesBE 4 (listALen l) ++ encodeListItemsA l)
  | .map m => 9 :: (bytesBE 4 (mapALen m) ++ encodeMapEntriesA m)
  | .uuid bs => 10 :: bs

/-- Body of `encode_list` after the count: each item in order. -/
def encodeListItemsA : ListA → List Nat
  | .nil => []
  | .cons v tl => encodeValueA v ++ encodeListItemsA tl

/-- Body of `encode_map` after the count: for each entry the
length-prefixed string key then the value. -/
def encodeMapEntriesA : MapA → List Nat
  | .nil => []
  | .cons k v tl => encodeStringA k ++ encodeValueA v ++ encodeMapEntriesA tl
end

/-- `BinaryMessageEncoder::encode_map`: 4-byte big-endian count then the
entries in insertion order. -/
def encodeMapA (m : MapA) : List Nat := bytesBE 4 (mapALen m) ++ encodeMapEntriesA m

/-- `BinaryMessageEncoder::encode_message` (the function behind
`codec::encode_message`): big-endian flags word, then the property map if
non-empty, then the body if present. -/
def encodeMessageA (m : MessageA) : List Nat :=
  let flags : Nat :=
    (if mapALen m.properties > 0 then 2 else 0) + (if m.body.isSome then 4 else 0)
  bytesBE 4 flags
    ++ (if mapALen m.properties > 0 then encodeMapA m.properties else [])
    ++ (match m.body with
        | some v => encodeValueA v
        | none => [])

/-!
## Size calculator of `src/message/mod.rs` (`BinaryFormatSizeCalculator`)

The visitor used by `FileSegment::write` to presize the encode buffer.
-/

mutual
/-- `BinaryFormatSizeCalculator::visit_value`: 1 tag byte plus the
variant rule.  For `Map`/`List` the source adds `map.len()` /
`list.len()` (not a fixed 4-byte count) before recursing. -/
def sizeValueA : ValueA → Nat
  | .null => 1
  | .str s => 1 + (4 + s.length)
  | .int32 _ => 1 + 4
  | .int64 _ => 1 + 8
  | .float32 _ => 1 + 4
  | .float64 _ => 1 + 8
  | .boolean _ => 1 + 1
  | .bytes bs => 1 + (4 + bs.length)
  | .list l => 1 + (listALen l + sizeListItemsA l)
  | .map m => 1 + (mapALen m + sizeMapEntriesA m)
  | .uuid _ => 1 + 16

/-- Contribution of the items of a `List`. -/
def sizeListItemsA : ListA → Nat
  | .nil => 0
  | .cons v tl => sizeValueA v + sizeListItemsA tl

/-- Contribution of the entries of a `Map`: length-prefixed string key
plus value per entry. -/
def sizeMapEntriesA : MapA → Nat
  | .nil => 0
  | .cons k v tl => (4 + k.length) + sizeValueA v + sizeMapEntriesA tl
end

/-- `BinaryFormatSizeCalculator::visit_message`: 4 bytes of flags, then
for each property the string key and the value (the source adds no
property-count field here), then the body if present. -/
def sizeMessageA (m : MessageA) : Nat :=
  4 + sizeMapEntriesA m.properties +
    (match m.body with
     | some v => sizeValueA v
     | none => 0)

/-- UTF-8 bytes of the string Hello. -/
def helloBytes : List Nat := [72, 101, 108, 108, 111]

/-- UTF-8 bytes of the string iter. -/
def iterBytes : List Nat := [105, 116, 101, 114]

example : sizeMessageA ⟨.nil, some (.str helloBytes)⟩ = 14 := by decide
example : (encodeMessageA ⟨.nil, some (.str helloBytes)⟩).length = 14 := by decide

/-!
## Binary decoder of `src/codec/decoder.rs` (`BinaryMessageDecoder`)

This decoder reads all multi-byte integers LITTLE-endian
(`get_u32::<LittleEndian>` etc.), while the encoder above writes them
big-endian.  Its tag table also differs from the encoder's: 0 Null,
1 String, 2 Int32, 3 Int64, 4 Float64, 5 Boolean, 7 Map, 8 List; any
other tag panics (`Unsupported value type`).  A cursor is modelled as the
list of remaining bytes; every reader returns the parsed value and the
rest, or an error where the Rust `Buf` would panic on underflow.  The
source checks `Flags::HAS_PROPERTIES`, a constant absent from
`src/codec/util.rs`; it is modelled as the `HAS_HEADERS` bit (2), the
only header/property bit the util module and the spec define.
-/

/-- Read `k` raw bytes from the cursor, error on underflow. -/
def getBytes (k : Nat) (bs : List Nat) : Except String (List Nat × List Nat) :=
  if k ≤ bs.length then .ok (bs.take k, bs.drop k) else .error "buffer underflow"

/-- Read a `u32` little-endian (`get_u32::<LittleEndian>`). -/
def getU32LE (bs : List Nat) : Except String (Nat × List Nat) := do
  let (h, rest) ← getBytes 4 bs
  .ok (valLE h, rest)

/-- Read one byte (`get_u8`). -/
def getU8 (bs : List Nat) : Except String (Nat × List Nat) := do
  let (h, rest) ← getBytes 1 bs
  .ok (valBE h, rest)

/-- The `bitflags` check behind `Flags::from_bits(..).unwrap()`: the five
defined bits are 1, 2, 4, 8, 16, so a word is accepted exactly when it is
below 32; any other word makes `from_bits` return `None` and the decoder
panic. -/
def flagsFromBits (n : Nat) : Except String Nat :=
  if n < 32 then .ok n else .error "Flags::from_bits returned None"

/-- `decode_string`: little-endian `u32` length then that many raw
bytes. -/
def decodeStringA (bs : List Nat) : Except String (List Nat × List Nat) := do
  let (len, bs) ← getU32LE bs
  getBytes len bs

mutual
/-- `BinaryMessageDecoder::decode_value`, with explicit fuel for the
recursion through nested containers (the top-level callers pass more fuel
than the buffer has bytes, which any successful parse consumes). -/
def decodeValueA : Nat → List Nat → Except String (ValueA × List Nat)
  | 0, _ => .error "out of fuel"
  | fuel + 1, bs => do
    let (tag, bs) ← getU8 bs
    match tag with
    | 0 => .ok (.null, bs)
    | 1 => do
      let (s, bs) ← decodeStringA bs
      .ok (.str s, bs)
    | 2 => do
      let (h, bs) ← getBytes 4 bs
      .ok (.int32 (toSigned 32 (valLE h)), bs)
    | 3 => do
      let (h, bs) ← getBytes 8 bs
      .ok (.int64 (toSigned 64 (valLE h)), bs)
    | 4 => do
      let (h, bs) ← getBytes 8 bs
      .ok (.float64 (valLE h), bs)
    | 5 => do
      let (b, bs) ← getU8 bs
      .ok (.boolean (b != 0), bs)
    | 7 => do
      let (count, bs) ← getU32LE bs
      let (m, bs) ← decodeMapItemsA fuel count .nil bs
      .ok (.map m, bs)
    | 8 => do
      let (count, bs) ← getU32LE bs
      let (l, bs) ← decodeListItemsA fuel count .nil bs
      .ok (.list l, bs)
    | _ => .error "Unsupported value type"

/-- Loop of `decode_list`: read `count` values, appending each to the
list builder. -/
def decodeListItemsA : Nat → Nat → ListA → List Nat → Except String (ListA × List Nat)
  | 0, _, _, _ => .error "out of fuel"
  | _ + 1, 0, acc, bs => .ok (acc, bs)
  | fuel + 1, count + 1, acc, bs => do
    let (v, bs) ← decodeValueA fuel bs
    decodeListItemsA fuel count (listAAppend acc v) bs

/-- Loop of `decode_map`: read `count` string-key/value pairs, inserting
each into the map builder. -/
def decodeMapItemsA : Nat → Nat → MapA → List Nat → Except String (MapA × List Nat)
  | 0, _, _, _ => .error "out of fuel"
  | _ + 1, 0, acc, bs => .ok (acc, bs)
  | fuel + 1, count + 1, acc, bs => do
    let (k, bs) ← decodeStringA bs
    let (v, bs) ← decodeValueA fuel bs
    decodeMapItemsA fuel count (mapAInsert acc k v) bs
end

/-- Loop of `decode_message` over the property count: read a string key
then a value for each property. -/
def decodePropsA : Nat → Nat → MapA → List Nat → Except String (MapA × List Nat)
  | 0, _, _, _ => .error "out of fuel"
  | _ + 1, 0, acc, bs => .ok (acc, bs)
  | fuel + 1, count + 1, acc, bs => do
    let (k, bs) ← decodeStringA bs
    let (v, bs) ← decodeValueA fuel bs
    decodePropsA fuel count (mapAInsert acc k v) bs

/-- `BinaryMessageDecoder::decode_message` (the function behind
`codec::decode_message`): little-endian flags word (panicking on
undefined bits), then the properties if the properties bit is set, then
the body if the body bit is set.  Trailing bytes are left unread, exactly
as in the source. -/
def decodeMessageA (bs : List Nat) : Except String MessageA := do
  let fuel := bs.length + 1
  let (rawFlags, bs) ← getU32LE bs
  let flags ← flagsFromBits rawFlags
  let (props, bs) ←
    if flags &&& 2 ≠ 0 then do
      let (count, bs) ← getU32LE bs
      decodePropsA fuel count .nil bs
    else
      .ok (MapA.nil, bs)
  let (body, _) ←
    if flags &&& 4 ≠ 0 then do
      let (v, bs) ← decodeValueA fuel bs
      .ok (some v, bs)
    else
      (.ok (none, bs) : Except String (Option ValueA × List Nat))
  .ok ⟨props, body⟩

example : decodeMessageA (encodeMessageA ⟨.nil, none⟩) = .ok ⟨.nil, none⟩ := rfl
example : exceptOk (decodeMessageA (encodeMessageA ⟨.nil, some (.str helloBytes)⟩)) = false := by decide

/-!
## Segment store of `src/topic/mod.rs` (`FileSegment`)

A segment owns two files opened in append+read mode: `segment.dat` and
`segment.idx`.  A file handle is modelled as its byte contents plus the
handle's cursor position; `seek(End)` and `seek(Start p)` move the
cursor, appends (the files are opened with `O_APPEND`) always go to the
end of the contents.  `write`, `read` and `size` are translated as state
transformers so that their file effects are visible.
-/

structure FileHandle : Type where
  contents : List Nat
  pos : Nat
  deriving Repr

structure FileSegment : Type where
  dat : FileHandle
  idx : FileHandle
  deriving Repr

/-- A freshly created segment directory: both files empty
(`FileSegment::with_directory` on a new directory). -/
def freshSegment : FileSegment := ⟨⟨[], 0⟩, ⟨[], 0⟩⟩

/-- `seek(SeekFrom::End(0))`: moves the cursor to the end and returns
the file length. -/
def seekEnd (f : FileHandle) : FileHandle × Nat :=
  (⟨f.contents, f.contents.length⟩, f.contents.length)

/-- `seek(SeekFrom::Start(p))`. -/
def seekStart (f : FileHandle) (p : Nat) : FileHandle :=
  ⟨f.contents, p⟩

/-- `write_all` on a file opened with append: the bytes go to the end of
the file and the cursor ends up after them. -/
def appendFile (f : FileHandle) (bs : List Nat) : FileHandle :=
  ⟨f.contents ++ bs, f.contents.length + bs.length⟩

/-- `read_exact` at the current cursor: errors (the source unwraps, i.e.
panics) when fewer bytes remain than requested. -/
def readExact (f : FileHandle) (k : Nat) : Except String (FileHandle × List Nat) :=
  if f.pos + k ≤ f.contents.length then
    .ok (⟨f.contents, f.pos + k⟩, (f.contents.drop f.pos).take k)
  else
    .error "read_exact: unexpected end of file"

/-- `FileSegment::size`: seeks the index file to its end and divides the
length by 4.  Returns the segment with the moved index cursor and the
size. -/
def sizeStep (s : FileSegment) : FileSegment × Nat :=
  let (idx1, len) := seekEnd s.idx
  (⟨s.dat, idx1⟩, len / 4)

/-- `FileSegment::write`: records the end of the data file as the
message start, appends the little-endian length prefix and the encoded
message to the data file, then appends the little-endian message start
to the index file.  (The `BinaryFormatSizeCalculator` pass in the source
only presizes the encode buffer and has no effect on the bytes
written.) -/
def writeStep (s : FileSegment) (m : MessageA) : FileSegment :=
  let (dat1, messageStart) := seekEnd s.dat
  let contents := encodeMessageA m
  let header := bytesLE 4 contents.length
  let dat2 := appendFile dat1 header
  let dat3 := appendFile dat2 contents
  let (idx1, _) := seekEnd s.idx
  let idx2 := appendFile idx1 (bytesLE 4 messageStart)
  ⟨dat3, idx2⟩

/-- `FileSegment::read`: `None` when the segment is empty or the offset
is past the last entry; otherwise reads the 4-byte index entry at
`offset * 4`, seeks the data file to that record, reads its 4-byte
little-endian length prefix and that many content bytes, and decodes
them.  A decode panic or a short read is an error. -/
def readStep (s : FileSegment) (offset : Nat) : FileSegment × Except String (Option MessageA) :=
  let (s1, size1) := sizeStep s
  if size1 = 0 then
    (s1, .ok none)
  else
    let (s2, size2) := sizeStep s1
    if size2 - 1 < offset then
      (s2, .ok none)
    else
      let idx3 := seekStart s2.idx (offset * 4)
      match readExact idx3 4 with
      | .error e => (⟨s2.dat, idx3⟩, .error e)
      | .ok (idx4, entry) =>
        let messageStart := valLE entry
        let dat1 := seekStart s2.dat messageStart
        match readExact dat1 4 with
        | .error e => (⟨dat1, idx4⟩, .error e)
        | .ok (dat2, szBytes) =>
          let messageSize := valLE szBytes
          match readExact dat2 messageSize with
          | .error e => (⟨dat2, idx4⟩, .error e)
          | .ok (dat3, buf) =>
            match decodeMessageA buf with
            | .error e => (⟨dat3, idx4⟩, .error e)
            | .ok msg => (⟨dat3, idx4⟩, .ok (some msg))

/-- Sequence of writes (the claims' "after n successful writes"). -/
def writeAll (s : FileSegment) (ms : List MessageA) : FileSegment :=
  ms.foldl writeStep s

/-- Reopening an existing segment directory
(`FileSegment::with_directory` on a directory that already holds the two
files): the file contents are preserved — append+read+create mode
neither truncates nor writes — and the new handles start at position
0. -/
def reopenSegment (s : FileSegment) : FileSegment :=
  ⟨⟨s.dat.contents, 0⟩, ⟨s.idx.contents, 0⟩⟩

example :
    (sizeStep (writeStep freshSegment ⟨.nil, some (.str helloBytes)⟩)).2 = 1 := by decide
example :
    (readStep freshSegment 0).2 = .ok none := rfl
example :
    exceptOk (readStep (writeStep freshSegment ⟨.nil, some (.str helloBytes)⟩) 0).2 = false := by
  decide
example :
    (readStep (writeStep freshSegment ⟨.nil, some (.str helloBytes)⟩) 1).2 = .ok none := rfl
example :
    (readStep (writeStep freshSegment ⟨.nil, none⟩) 0).2 = .ok (some ⟨.nil, none⟩) := rfl



/-!
## Byte-level and segment-level lemmas

Supporting facts used by the claim theorems: lengths of the fixed-width
encodings, the round trip between `bytesLE`/`bytesBE` and
`valLE`/`valBE`, the effect of `write` on the two files, and the shape
of a `read` of the first record.
-/




theorem bytesBE_length (k n : Nat) : (bytesBE k n).length = k := by
  induction k generalizing n with
  | zero => rfl
  | succ k ih => simp [bytesBE, ih]

theorem bytesLE_length (k n : Nat) : (bytesLE k n).length = k := by
  simp [bytesLE, bytesBE_length]

theorem writeStep_dat_contents (s : FileSegment) (m : MessageA) :
    (writeStep s m).dat.contents =
      s.dat.contents ++ (bytesLE 4 (encodeMessageA m).length ++ encodeMessageA m) := by
  simp [writeStep, appendFile, seekEnd]

theorem writeStep_idx_contents (s : FileSegment) (m : MessageA) :
    (writeStep s m).idx.contents = s.idx.contents ++ bytesLE 4 s.dat.contents.length := by
  simp [writeStep, appendFile, seekEnd]

theorem writeAll_idx_length (ms : List MessageA) (s : FileSegment) :
    (writeAll s ms).idx.contents.length = s.idx.contents.length + 4 * ms.length := by
  induction ms generalizing s with
  | nil => simp [writeAll]
  | cons m tl ih =>
    have h1 : writeAll s (m :: tl) = writeAll (writeStep s m) tl := rfl
    rw [h1, ih, writeStep_idx_contents]
    simp [bytesLE_length]
    omega

theorem writeAll_dat_append (ms : List MessageA) (s : FileSegment) :
    ∃ t, (writeAll s ms).dat.contents = s.dat.contents ++ t := by
  induction ms generalizing s with
  | nil => exact ⟨[], by simp [writeAll]⟩
  | cons m tl ih =>
    obtain ⟨t, ht⟩ := ih (writeStep s m)
    refine ⟨(bytesLE 4 (encodeMessageA m).length ++ encodeMessageA m) ++ t, ?_⟩
    have h1 : writeAll s (m :: tl) = writeAll (writeStep s m) tl := rfl
    rw [h1, ht, writeStep_dat_contents]
    simp

theorem writeAll_idx_append (ms : List MessageA) (s : FileSegment) :
    ∃ t, (writeAll s ms).idx.contents = s.idx.contents ++ t := by
  induction ms generalizing s with
  | nil => exact ⟨[], by simp [writeAll]⟩
  | cons m tl ih =>
    obtain ⟨t, ht⟩ := ih (writeStep s m)
    refine ⟨bytesLE 4 s.dat.contents.length ++ t, ?_⟩
    have h1 : writeAll s (m :: tl) = writeAll (writeStep s m) tl := rfl
    rw [h1, ht, writeStep_idx_contents]
    simp

theorem valBE_foldl (acc : Nat) (l : List Nat) :
    l.foldl (fun a b => a * 256 + b) acc =
      acc * 256 ^ l.length + l.foldl (fun a b => a * 256 + b) 0 := by
  induction l generalizing acc with
  | nil => simp
  | cons b l ih =>
    simp only [List.foldl_cons, List.length_cons, Nat.zero_mul, Nat.zero_add]
    rw [ih (acc * 256 + b), ih b]
    ring

theorem valBE_bytesBE (k n : Nat) : valBE (bytesBE k n) = n % 2 ^ (8 * k) := by
  induction k generalizing n with
  | zero => simp [bytesBE, valBE, Nat.mod_one]
  | succ k ih =>
    have hsplit : (2 : Nat) ^ (8 * (k + 1)) = 2 ^ (8 * k) * 256 := by
      rw [Nat.mul_succ, pow_add]
      norm_num
    have hp : (256 : Nat) ^ k = 2 ^ (8 * k) := by
      rw [show (256 : Nat) = 2 ^ 8 by norm_num, ← pow_mul]
    simp only [bytesBE, valBE, List.foldl_cons, Nat.zero_mul, Nat.zero_add]
    rw [valBE_foldl, bytesBE_length]
    have hrec := ih n
    simp only [valBE] at hrec
    rw [hrec, hsplit, Nat.mod_mul, hp]
    ring

theorem valLE_bytesLE (k n : Nat) : valLE (bytesLE k n) = n % 2 ^ (8 * k) := by
  simp [valLE, bytesLE, valBE_bytesBE]

theorem readExact_ok_spec {f : FileHandle} {k : Nat} {g : FileHandle} {bs : List Nat}
    (h : readExact f k = .ok (g, bs)) :
    g.contents = f.contents ∧ bs = (f.contents.drop f.pos).take k := by
  unfold readExact at h
  split at h
  · cases h
    exact ⟨rfl, rfl⟩
  · cases h

theorem readStep_first (s : FileSegment) (E t u : List Nat)
    (hd : s.dat.contents = (bytesLE 4 E.length ++ E) ++ t)
    (hi : s.idx.contents = bytesLE 4 0 ++ u)
    (hE : E.length < 2 ^ 32) :
    (readStep s 0).2 = (decodeMessageA E).map some := by
  simp only [readStep, sizeStep, seekEnd, seekStart]
  rw [hi, hd]
  rw [if_neg (by simp only [List.length_append, bytesLE_length]; omega)]
  rw [if_neg (Nat.not_lt_zero _)]
  have h1 : readExact ⟨bytesLE 4 0 ++ u, 0 * 4⟩ 4 = .ok (⟨bytesLE 4 0 ++ u, 0 * 4 + 4⟩, bytesLE 4 0) := by
    rw [readExact, if_pos (by simp only [List.length_append, bytesLE_length]; omega)]
    simp only [Except.ok.injEq, Prod.mk.injEq, true_and]
    simp only [Nat.zero_mul, List.drop_zero]
    exact List.take_left' (bytesLE_length 4 0)
  rw [h1]
  dsimp only
  rw [valLE_bytesLE]
  simp only [Nat.zero_mod]
  have h2 : readExact ⟨(bytesLE 4 E.length ++ E) ++ t, 0⟩ 4 =
      .ok (⟨(bytesLE 4 E.length ++ E) ++ t, 0 + 4⟩, bytesLE 4 E.length) := by
    rw [readExact, if_pos (by simp only [List.length_append, bytesLE_length]; omega)]
    simp only [Except.ok.injEq, Prod.mk.injEq, true_and]
    simp only [List.drop_zero, List.append_assoc]
    exact List.take_left' (bytesLE_length 4 E.length)
  rw [h2]
  dsimp only
  rw [valLE_bytesLE, Nat.mod_eq_of_lt (by omega : E.length < 2 ^ (8 * 4))]
  have h3 : readExact ⟨(bytesLE 4 E.length ++ E) ++ t, 0 + 4⟩ E.length =
      .ok (⟨(bytesLE 4 E.length ++ E) ++ t, 0 + 4 + E.length⟩, E) := by
    rw [readExact, if_pos (by simp only [List.length_append, bytesLE_length]; omega)]
    simp only [Except.ok.injEq, Prod.mk.injEq, true_and]
    rw [List.append_assoc]
    have h4 : (0 + 4 : Nat) = (bytesLE 4 E.length).length := by simp [bytesLE_length]
    rw [h4, List.drop_left, List.take_left]
  rw [h3]
  dsimp only
  cases decodeMessageA E with
  | error e => rfl
  | ok msg => rfl

theorem readStep_snd_contents (d x : List Nat) (p q p2 q2 o : Nat) :
    (readStep ⟨⟨d, p⟩, ⟨x, q⟩⟩ o).2 = (readStep ⟨⟨d, p2⟩, ⟨x, q2⟩⟩ o).2 := by
  simp only [readStep, sizeStep, seekEnd, seekStart]
  split
  · rfl
  · split
    · rfl
    · split
      · rfl
      · split
        · rfl
        · split
          · rfl
          · split
            · rfl
            · rfl

theorem readStep_preserves (s : FileSegment) (o : Nat) :
    (readStep s o).1.dat.contents = s.dat.contents ∧
      (readStep s o).1.idx.contents = s.idx.contents := by
  simp only [readStep, sizeStep, seekEnd, seekStart]
  split
  · exact ⟨rfl, rfl⟩
  · split
    · exact ⟨rfl, rfl⟩
    · split
      · exact ⟨rfl, rfl⟩
      · rename_i idx4 entry heq1
        have hc1 := (readExact_ok_spec heq1).1
        split
        · exact ⟨rfl, hc1⟩
        · rename_i dat2 szBytes heq2
          have hc2 := (readExact_ok_spec heq2).1
          split
          · exact ⟨hc2, hc1⟩
          · rename_i dat3 buf heq3
            have hc3 := (readExact_ok_spec heq3).1
            split
            · exact ⟨hc3.trans hc2, hc1⟩
            · exact ⟨hc3.trans hc2, hc1⟩


/-!
## Data model of `src/message/message.rs`

The richer `Message` used by `src/codec/message_codec.rs` and
`src/codec/simple.rs`: tagged keys (`Key::Str`/`Key::I32`), values with
`Uuid` and `Timestamp` variants, and an envelope with optional timestamp,
expiration and correlation id.  A `chrono` timestamp is modelled by its
epoch seconds and its sub-second component in nanoseconds
(`timestamp()`, `timestamp_subsec_nanos()`;
`timestamp_subsec_millis() = timestamp_subsec_nanos() / 1000000`).
-/

structure TimestampB : Type where
  secs : Int
  subsecNanos : Nat
  deriving DecidableEq, Repr

inductive KeyB : Type where
  | str (s : List Nat) : KeyB
  | i32 (n : Int) : KeyB
  deriving DecidableEq, Repr

mutual
inductive ValueB : Type where
  | null : ValueB
  | str (s : List Nat) : ValueB
  | i32 (n : Int) : ValueB
  | i64 (n : Int) : ValueB
  | f32 (bits : Nat) : ValueB
  | f64 (bits : Nat) : ValueB
  | bool (b : Bool) : ValueB
  | bytes (bs : List Nat) : ValueB
  | list (items : ListB) : ValueB
  | map (entries : MapB) : ValueB
  | uuid (bs : List Nat) : ValueB
  | timestamp (t : TimestampB) : ValueB

inductive ListB : Type where
  | nil : ListB
  | cons (hd : ValueB) (tl : ListB) : ListB

inductive MapB : Type where
  | nil : MapB
  | cons (key : KeyB) (val : ValueB) (tl : MapB) : MapB
end

/-- Length of a `List` (`List::len`). -/
def listBLen : ListB → Nat
  | .nil => 0
  | .cons _ tl => listBLen tl + 1

/-- Length of a `Map` (`Map::len`). -/
def mapBLen : MapB → Nat
  | .nil => 0
  | .cons _ _ tl => mapBLen tl + 1

/-- `List::push`: append at the end. -/
def listBPush : ListB → ValueB → ListB
  | .nil, v => .cons v .nil
  | .cons hd tl, v => .cons hd (listBPush tl v)

/-- `LinkedHashMap::insert` keyed by `Key`: an existing key keeps its
position and gets the new value, a new key is appended at the end. -/
def mapBInsert : MapB → KeyB → ValueB → MapB
  | .nil, key, v => .cons key v .nil
  | .cons k w tl, key, v =>
    if k = key then .cons k v tl else .cons k w (mapBInsert tl key v)

/-- The `Message` of `src/message/message.rs`. -/
structure MessageB : Type where
  timestamp : Option TimestampB
  expiration : Option TimestampB
  correlationId : Option (List Nat)
  headers : MapB
  body : Option ValueB

/-!
## Encoder of `src/codec/message_codec.rs` (`Encoder`, a `MessageVisitor`
writing to a `BytesMut`)

All integers big-endian.  `visit_timestamp` writes the 8-byte seconds
followed by `timestamp_subsec_millis() as i32` — the sub-second field is
written in MILLIseconds.  `visit_key` writes the key payload without any
key tag byte.  `visit_value` writes tag 8 for `Map` and tag 9 for
`List`.
-/

/-- `Encoder::visit_str`: 4-byte big-endian length then the bytes. -/
def encodeStrB (s : List Nat) : List Nat := bytesBE 4 s.length ++ s

/-- `Encoder::visit_timestamp`: `put_i64(ts.timestamp())` then
`put_i32(ts.timestamp_subsec_millis() as i32)`. -/
def encodeTimestampB (t : TimestampB) : List Nat :=
  putI64BE t.secs ++ putI32BE ((t.subsecNanos / 1000000 : Nat) : Int)

/-- `BinaryMessageCodec::encode_timestamp` of `src/codec/simple.rs`:
`encode_i64(ts.timestamp())` then
`encode_i32(ts.timestamp_subsec_nanos() as i32)` — this sibling codec
writes the sub-second field in NANOseconds. -/
def encodeTimestampSimple (t : TimestampB) : List Nat :=
  putI64BE t.secs ++ putI32BE ((t.subsecNanos : Nat) : Int)

/-- `Encoder::visit_key`: the key payload; the source writes no key tag
byte here. -/
def encodeKeyB (k : KeyB) : List Nat :=
  match k with
  | .str s => encodeStrB s
  | .i32 n => putI32BE n

mutual
/-- `Encoder::visit_value`: tag byte then payload.  Tags: 0 Null, 1 Str,
2 I32, 3 I64, 4 F32, 5 F64, 6 Bool, 7 Bytes, 8 Map, 9 List, 10 Uuid,
11 Timestamp. -/
def encodeValueB : ValueB → List Nat
  | .null => [0]
  | .str s => 1 :: encodeStrB s
  | .i32 n => 2 :: putI32BE n
  | .i64 n => 3 :: putI64BE n
  | .f32 bits => 4 :: bytesBE 4 bits
  | .f64 bits => 5 :: bytesBE 8 bits
  | .bool b => 6 :: [if b then 1 else 0]
  | .bytes bs => 7 :: (bytesBE 4 bs.length ++ bs)
  | .map m => 8 :: (putI32BE (mapBLen m : Int) ++ encodeMapEntriesB m)
  | .list l => 9 :: (putI32BE (listBLen l : Int) ++ encodeListItemsB l)
  | .uuid bs => 10 :: bs
  | .timestamp t => 11 :: encodeTimestampB t

/-- Items written by `Encoder::visit_list` after the count. -/
def encodeListItemsB : ListB → List Nat
  | .nil => []
  | .cons v tl => encodeValueB v ++ encodeListItemsB tl

/-- Entries written by `Encoder::visit_map` after the count: key payload
(`visit_key`) then value. -/
def encodeMapEntriesB : MapB → List Nat
  | .nil => []
  | .cons k v tl => encodeKeyB k ++ encodeValueB v ++ encodeMapEntriesB tl
end

/-- `Encoder::visit_message`: big-endian `i32` flags
(`HAS_TIMESTAMP = 1`, `HAS_HEADERS = 2`, `HAS_BODY = 4`,
`HAS_EXPIRATION = 8`, `HAS_CORRELATION_ID = 16`), then each present
optional field in order: timestamp, expiration, correlation id (16 raw
bytes), headers (count then entries), body.  No version word is
written. -/
def encodeMessageB (m : MessageB) : List Nat :=
  let flags : Nat :=
    (if m.timestamp.isSome then 1 else 0) +
    (if m.expiration.isSome then 8 else 0) +
    (if m.correlationId.isSome then 16 else 0) +
    (if mapBLen m.headers > 0 then 2 else 0) +
    (if m.body.isSome then 4 else 0)
  bytesBE 4 flags
    ++ (match m.timestamp with
        | some t => encodeTimestampB t
        | none => [])
    ++ (match m.expiration with
        | some t => encodeTimestampB t
        | none => [])
    ++ (match m.correlationId with
        | some bs => bs
        | none => [])
    ++ (if mapBLen m.headers > 0 then
          putI32BE (mapBLen m.headers : Int) ++ encodeMapEntriesB m.headers
        else [])
    ++ (match m.body with
        | some v => encodeValueB v
        | none => [])

/-!
## Decoder of `src/codec/message_codec.rs` (`Decoder` over `ZeroCursor`)

All integers big-endian.  `ZeroCursor` slices the underlying buffer;
slicing past the end panics, modelled as an error.  Notable source
behaviours embedded faithfully: `decode_message` first reads a 4-byte
`_version` word BEFORE the flags, although `Encoder::visit_message`
writes no such word; `decode_value` maps tag 8 to `List` and tag 9 to
`Map` (the reverse of the encoder); `get_timestamp` passes the 4-byte
sub-second field to `UTC.timestamp(secs, nanos)`, i.e. reads it in
NANOseconds; `decode_key` expects key tag bytes 0 (`Str`) or 1 (`I32`),
which `Encoder::visit_key` never writes.  A negative string/bytes length
(`size as usize` on a negative `i32`) exceeds every buffer and is an
error.  Loop counts are read as `i32`; `for _ in 0..count` performs
`max(count, 0)` iterations, hence `Int.toNat`.
-/

/-- Read a big-endian `i32` from the cursor (`ZeroCursor::get_i32`). -/
def getI32BE (bs : List Nat) : Except String (Int × List Nat) := do
  let (h, rest) ← getBytes 4 bs
  .ok (toSigned 32 (valBE h), rest)

/-- Read a big-endian `i64` (`ZeroCursor::get_i64`). -/
def getI64BE (bs : List Nat) : Except String (Int × List Nat) := do
  let (h, rest) ← getBytes 8 bs
  .ok (toSigned 64 (valBE h), rest)

/-- `ZeroCursor::get_timestamp`: 12 bytes, an `i64` of seconds then an
`i32` passed as the NANOsecond argument of `UTC.timestamp`. -/
def getTimestampB (bs : List Nat) : Except String (TimestampB × List Nat) := do
  let (h, rest) ← getBytes 12 bs
  .ok (⟨toSigned 64 (valBE (h.take 8)), valBE (h.drop 8)⟩, rest)

/-- `ZeroCursor::get_uuid`: 16 raw bytes. -/
def getUuidB (bs : List Nat) : Except String (List Nat × List Nat) :=
  getBytes 16 bs

/-- `Decoder::decode_str`: `i32` length then that many bytes; a negative
length, cast to `usize`, exceeds every buffer. -/
def decodeStrB (bs : List Nat) : Except String (List Nat × List Nat) := do
  let (size, bs) ← getI32BE bs
  if size < 0 then
    .error "string length out of range"
  else
    getBytes size.toNat bs

/-- `Decoder::decode_bytes`: same shape as `decode_str`. -/
def decodeBytesB (bs : List Nat) : Except String (List Nat × List Nat) := do
  let (size, bs) ← getI32BE bs
  if size < 0 then
    .error "byte length out of range"
  else
    getBytes size.toNat bs

/-- `Decoder::decode_key`: key tag 0 is `Str`, 1 is `I32`, anything else
panics (`Unsupported key type`). -/
def decodeKeyB (bs : List Nat) : Except String (KeyB × List Nat) := do
  let (tag, bs) ← getU8 bs
  match tag with
  | 0 => do
    let (s, bs) ← decodeStrB bs
    .ok (.str s, bs)
  | 1 => do
    let (n, bs) ← getI32BE bs
    .ok (.i32 n, bs)
  | _ => .error "Unsupported key type"

mutual
/-- `Decoder::decode_value`, with fuel for the recursion through nested
containers.  Tag 8 builds a `List` and tag 9 a `Map`; tags above 11
panic (`Unsupported value type`). -/
def decodeValueB : Nat → List Nat → Except String (ValueB × List Nat)
  | 0, _ => .error "out of fuel"
  | fuel + 1, bs => do
    let (tag, bs) ← getU8 bs
    match tag with
    | 0 => .ok (.null, bs)
    | 1 => do
      let (s, bs) ← decodeStrB bs
      .ok (.str s, bs)
    | 2 => do
      let (n, bs) ← getI32BE bs
      .ok (.i32 n, bs)
    | 3 => do
      let (n, bs) ← getI64BE bs
      .ok (.i64 n, bs)
    | 4 => do
      let (h, bs) ← getBytes 4 bs
      .ok (.f32 (valBE h), bs)
    | 5 => do
      let (h, bs) ← getBytes 8 bs
      .ok (.f64 (valBE h), bs)
    | 6 => do
      let (b, bs) ← getU8 bs
      .ok (.bool (b != 0), bs)
    | 7 => do
      let (v, bs) ← decodeBytesB bs
      .ok (.bytes v, bs)
    | 8 => do
      let (count, bs) ← getI32BE bs
      let (l, bs) ← decodeListItemsB fuel count.toNat .nil bs
      .ok (.list l, bs)
    | 9 => do
      let (count, bs) ← getI32BE bs
      let (m, bs) ← decodeMapItemsB fuel count.toNat .nil bs
      .ok (.map m, bs)
    | 10 => do
      let (u, bs) ← getUuidB bs
      .ok (.uuid u, bs)
    | 11 => do
      let (t, bs) ← getTimestampB bs
      .ok (.timestamp t, bs)
    | _ => .error "Unsupported value type"

/-- Loop of `Decoder::decode_list`: `count` values pushed in order. -/
def decodeListItemsB : Nat → Nat → ListB → List Nat → Except String (ListB × List Nat)
  | 0, _, _, _ => .error "out of fuel"
  | _ + 1, 0, acc, bs => .ok (acc, bs)
  | fuel + 1, count + 1, acc, bs => do
    let (v, bs) ← decodeValueB fuel bs
    decodeListItemsB fuel count (listBPush acc v) bs

/-- Loop of `Decoder::decode_map`: `count` key/value pairs inserted in
order. -/
def decodeMapItemsB : Nat → Nat → MapB → List Nat → Except String (MapB × List Nat)
  | 0, _, _, _ => .error "out of fuel"
  | _ + 1, 0, acc, bs => .ok (acc, bs)
  | fuel + 1, count + 1, acc, bs => do
    let (k, bs) ← decodeKeyB bs
    let (v, bs) ← decodeValueB fuel bs
    decodeMapItemsB fuel count (mapBInsert acc k v) bs
end

/-- The `bitflags` check on an `i32` flags word: accepted exactly when
only the five defined bits (mask 31) are set, i.e. the signed value lies
in `[0, 32)`; otherwise `from_bits` is `None` and the decoder panics
(`Error reading flags`). -/
def flagsFromBitsI (i : Int) : Except String Nat :=
  if 0 ≤ i ∧ i < 32 then .ok i.toNat else .error "Error reading flags"

/-- Loop of `Decoder::decode_message` over the header count. -/
def decodeHeadersB : Nat → Nat → MapB → List Nat → Except String (MapB × List Nat)
  | 0, _, _, _ => .error "out of fuel"
  | _ + 1, 0, acc, bs => .ok (acc, bs)
  | fuel + 1, count + 1, acc, bs => do
    let (k, bs) ← decodeKeyB bs
    let (v, bs) ← decodeValueB fuel bs
    decodeHeadersB fuel count (mapBInsert acc k v) bs

/-- `Decoder::decode_message`: reads a 4-byte `_version` word FIRST,
then the flags, then each flagged optional field in order (timestamp,
expiration, correlation id, headers, body).  Trailing bytes are left
unread. -/
def decodeMessageB (bs : List Nat) : Except String MessageB := do
  let fuel := bs.length + 1
  let (_version, bs) ← getI32BE bs
  let (rawFlags, bs) ← getI32BE bs
  let flags ← flagsFromBitsI rawFlags
  let (ts, bs) ←
    if flags &&& 1 ≠ 0 then do
      let (t, bs) ← getTimestampB bs
      .ok (some t, bs)
    else
      (.ok (none, bs) : Except String (Option TimestampB × List Nat))
  let (exp, bs) ←
    if flags &&& 8 ≠ 0 then do
      let (t, bs) ← getTimestampB bs
      .ok (some t, bs)
    else
      (.ok (none, bs) : Except String (Option TimestampB × List Nat))
  let (corr, bs) ←
    if flags &&& 16 ≠ 0 then do
      let (u, bs) ← getUuidB bs
      .ok (some u, bs)
    else
      (.ok (none, bs) : Except String (Option (List Nat) × List Nat))
  let (headers, bs) ←
    if flags &&& 2 ≠ 0 then do
      let (count, bs) ← getI32BE bs
      decodeHeadersB fuel count.toNat .nil bs
    else
      (.ok (MapB.nil, bs) : Except String (MapB × List Nat))
  let (body, _) ←
    if flags &&& 4 ≠ 0 then do
      let (v, bs) ← decodeValueB fuel bs
      .ok (some v, bs)
    else
      (.ok (none, bs) : Except String (Option ValueB × List Nat))
  .ok ⟨ts, exp, corr, headers, body⟩

example :
    exceptOk (decodeMessageB (encodeMessageB ⟨none, none, none, .nil, none⟩)) = false := by
  decide
example :
    decodeMessageB (bytesBE 4 0 ++ encodeMessageB ⟨none, none, none, .nil, none⟩) =
      .ok ⟨none, none, none, .nil, none⟩ := rfl

/-!
## Concrete messages used by the claims
-/

/-- Message with body `Str "Hello"` and no properties
(`Message::with_body("Hello")`). -/
def helloMessage : MessageA := ⟨.nil, some (.str helloBytes)⟩

/-- Message with the single property `"a" -> Int32(1)` and no body
(UTF-8 of `"a"` is `[97]`). -/
def onePropMessage : MessageA := ⟨MapA.cons [97] (.int32 1) .nil, none⟩

/-- Message whose body is the one-element list `[Int32(1)]`. -/
def listBodyMessage : MessageA := ⟨.nil, some (.list (.cons (.int32 1) .nil))⟩

/-- The message written by the iteration scenario:
`Message::with_body("Hello").with_property("iter", i)`. -/
def iterMessage (i : Nat) : MessageA :=
  ⟨MapA.cons iterBytes (.int32 (i : Int)) .nil, some (.str helloBytes)⟩

/-- A fresh segment after the 100 writes of the iteration scenario. -/
def segment100 : FileSegment :=
  writeAll freshSegment ((List.range 100).map iterMessage)

/-- `Message::new()` of `src/message/message.rs`: every optional field
absent, no headers. -/
def emptyMessageB : MessageB := ⟨none, none, none, .nil, none⟩

/-- A timestamp of 0 seconds and half a second
(500 000 000 nanoseconds, i.e. `timestamp_subsec_millis() = 500`). -/
def halfSecondTimestamp : TimestampB := ⟨0, 500000000⟩

/-- Reduction of an Except bind applied to a success, used to unfold the
decoders on symbolic buffers. -/
theorem exceptBindOk {ε α β : Type} (a : α) (f : α → Except ε β) :
    (Except.ok a >>= f : Except ε β) = f a := rfl

/-!
## Claim theorems
-/

/-- C1 (code bug): the round-trip `decode(encode(m)) == m` through the
public codec pair (`codec::encode_message` = `BinaryMessageEncoder`,
`codec::decode_message` = `BinaryMessageDecoder`) fails: already for the
message with body `Str "Hello"` the decoder panics, because the encoder
writes the flags word big-endian while the decoder reads it
little-endian (and their tag tables disagree on 4/5/6/7/8/9).  Decoding
the encoder's output produces no message at all. -/
theorem claim1_roundTrip_fails_on_string_body :
    exceptOk (decodeMessageA (encodeMessageA helloMessage)) = false ∧
      decodeMessageA (encodeMessageA ⟨.nil, none⟩) = .ok ⟨.nil, none⟩ :=
  ⟨by decide, rfl⟩

/-- C2 (code bug): the size contract `calculate_size(m) = len(encode(m))`
between `BinaryFormatSizeCalculator` and `BinaryMessageEncoder` fails
exactly where the claim highlights it.  For one property the calculator
misses the 4-byte property count the encoder writes (14 vs 18); for a
one-element list body `visit_list` adds `list.len()` instead of the
encoder's fixed 4-byte count (11 vs 14). -/
theorem claim2_size_calculator_underestimates :
    (sizeMessageA onePropMessage = 14 ∧ (encodeMessageA onePropMessage).length = 18) ∧
      (sizeMessageA listBodyMessage = 11 ∧ (encodeMessageA listBodyMessage).length = 14) := by
  refine ⟨⟨by decide, by decide⟩, ⟨by decide, by decide⟩⟩

/-- C3 (code bug): after one successful write of the `"Hello"` message to
a fresh segment, `size()` is 1 and out-of-range reads return `None`, but
the in-range `read(0)` is NOT `Some`: it panics inside
`decode_message` (the codec mismatch of C1), contradicting the offset
density property and the store's own tests. -/
theorem claim3_offset_density_read_panics :
    (sizeStep (writeStep freshSegment helloMessage)).2 = 1 ∧
      exceptOk (readStep (writeStep freshSegment helloMessage) 0).2 = false ∧
      (readStep (writeStep freshSegment helloMessage) 1).2 = .ok none ∧
      (readStep freshSegment 0).2 = .ok none :=
  ⟨by decide, by decide, rfl, rfl⟩

/-- C4 (code bug): `Decoder::decode_message` does not read the flags
first: it consumes a 4-byte `_version` word before the flags, which
`Encoder::visit_message` never writes.  Decoding the encoder's own
4-byte output for `Message::new()` therefore fails (the flags read runs
off the end of the buffer), while prepending an extra 4-byte word makes
the same payload decode — the decoder consumes 4 bytes more than the
encoder produced. -/
theorem claim4_decoder_reads_version_before_flags :
    encodeMessageB emptyMessageB = bytesBE 4 0 ∧
      exceptOk (decodeMessageB (encodeMessageB emptyMessageB)) = false ∧
      decodeMessageB (bytesBE 4 0 ++ encodeMessageB emptyMessageB) = .ok emptyMessageB :=
  ⟨rfl, by decide, rfl⟩

/-- C5 (code bug): encoder and decoder of
`src/codec/message_codec.rs` disagree on the Map/List tags.
`Encoder::visit_value` writes tag 8 for `Map` and 9 for `List`, but
`Decoder::decode_value` decodes tag 8 as `List` and 9 as `Map`, so an
encoded empty `Map` comes back as an empty `List` and vice versa. -/
theorem claim5_map_list_tag_disagreement :
    encodeValueB (ValueB.map MapB.nil) = 8 :: putI32BE 0 ∧
      decodeValueB 5 (encodeValueB (ValueB.map MapB.nil)) = .ok (ValueB.list ListB.nil, []) ∧
      encodeValueB (ValueB.list ListB.nil) = 9 :: putI32BE 0 ∧
      decodeValueB 5 (encodeValueB (ValueB.list ListB.nil)) = .ok (ValueB.map MapB.nil, []) ∧
      ValueB.list ListB.nil ≠ ValueB.map MapB.nil :=
  ⟨rfl, rfl, rfl, rfl, fun h => ValueB.noConfusion h⟩

/-- C6 (code bug): the 12-byte timestamp encoding does not round-trip
through `src/codec/message_codec.rs`: `Encoder::visit_timestamp` writes
the sub-second field in milliseconds (`timestamp_subsec_millis`), while
`ZeroCursor::get_timestamp` hands the same field to `UTC.timestamp` as
nanoseconds.  Half a second (500 000 000 ns) is written as 500 and read
back as 500 ns.  The sibling `simple.rs` codec writes nanoseconds, so
the same decoder DOES round-trip its output — the two paths disagree on
the unit, exactly as the claim's sources suspect. -/
theorem claim6_timestamp_unit_mismatch :
    encodeTimestampB halfSecondTimestamp = putI64BE 0 ++ putI32BE 500 ∧
      getTimestampB (encodeTimestampB halfSecondTimestamp) =
        .ok (⟨0, 500⟩, []) ∧
      (⟨0, 500⟩ : TimestampB) ≠ halfSecondTimestamp ∧
      getTimestampB (encodeTimestampSimple halfSecondTimestamp) =
        .ok (halfSecondTimestamp, []) :=
  ⟨rfl, rfl, by decide, rfl⟩

/-- C7 (code bug): after the 100 writes of the iteration scenario
(`"Hello"` with property `iter = i`), the segment's size is 100 but the
forward iterator cannot yield the pair at offset 0: `FileSegmentIter`
calls `read` afresh for each offset, and already `read(0)` panics inside
the mismatched decoder (C1), so no sequence of 100 `(offset, message)`
pairs is produced in either direction. -/
theorem claim7_iteration_first_read_panics :
    (sizeStep segment100).2 = 100 ∧ exceptOk (readStep segment100 0).2 = false := by
  constructor
  · show segment100.idx.contents.length / 4 = 100
    unfold segment100
    rw [writeAll_idx_length]
    simp [freshSegment]
  · have hms : (List.range 100).map iterMessage =
        iterMessage 0 :: (List.range 99).map (fun i => iterMessage (i + 1)) := by
      rw [List.range_succ_eq_map, List.map_cons, List.map_map]
      rfl
    have hseg : segment100 =
        writeAll (writeStep freshSegment (iterMessage 0))
          ((List.range 99).map (fun i => iterMessage (i + 1))) := by
      unfold segment100
      rw [hms]
      simp only [writeAll, List.foldl_cons]
    obtain ⟨t, ht⟩ :=
      writeAll_dat_append ((List.range 99).map (fun i => iterMessage (i + 1)))
        (writeStep freshSegment (iterMessage 0))
    obtain ⟨u, hu⟩ :=
      writeAll_idx_append ((List.range 99).map (fun i => iterMessage (i + 1)))
        (writeStep freshSegment (iterMessage 0))
    rw [writeStep_dat_contents] at ht
    rw [writeStep_idx_contents] at hu
    simp only [freshSegment, List.nil_append, List.length_nil] at ht hu
    have hread := readStep_first segment100 (encodeMessageA (iterMessage 0)) t u
      (by rw [hseg]; exact ht) (by rw [hseg]; exact hu) (by decide)
    rw [hread]
    decide

/-- C8 (confirmed): persistence across reopen.  Writing any list of
messages to a fresh segment, dropping the handles and reopening the same
directory preserves both files' contents, so the reopened `size()` —
recomputed as the index file length divided by 4, never from a cached
counter — equals the number of writes, and every `read(i)` returns
exactly the result it returned before the reopen. -/
theorem claim8_reopen_preserves_size_and_reads (ms : List MessageA) (i : Nat) :
    (sizeStep (reopenSegment (writeAll freshSegment ms))).2 = ms.length ∧
      (readStep (reopenSegment (writeAll freshSegment ms)) i).2 =
        (readStep (writeAll freshSegment ms) i).2 := by
  constructor
  · show (reopenSegment (writeAll freshSegment ms)).idx.contents.length / 4 = ms.length
    have h : (reopenSegment (writeAll freshSegment ms)).idx.contents =
        (writeAll freshSegment ms).idx.contents := rfl
    rw [h, writeAll_idx_length]
    simp [freshSegment]
  · generalize writeAll freshSegment ms = s
    obtain ⟨⟨d, p⟩, ⟨x, q⟩⟩ := s
    exact readStep_snd_contents d x 0 0 p q i

/-- C9 (confirmed): an unknown Key or Value tag byte is a fatal,
unrecoverable decode error.  `Decoder::decode_key` of
`message_codec.rs` rejects every key tag other than 0 and 1,
`Decoder::decode_value` rejects every value tag above 11, and
`BinaryMessageDecoder::decode_value` of `decoder.rs` rejects the tags
outside its table (6, 9, and everything from 10 up); in each case the
decoder stops with an error, producing no value and skipping nothing,
whatever bytes follow the tag. -/
theorem claim9_unknown_tag_is_fatal :
    (∀ t rest, 2 ≤ t → exceptOk (decodeKeyB (t :: rest)) = false) ∧
      (∀ fuel t rest, 12 ≤ t → exceptOk (decodeValueB (fuel + 1) (t :: rest)) = false) ∧
      (∀ fuel t rest, t = 6 ∨ t = 9 ∨ 10 ≤ t →
        exceptOk (decodeValueA (fuel + 1) (t :: rest)) = false) := by
  refine ⟨?_, ?_, ?_⟩
  · intro t rest h
    simp only [decodeKeyB, getU8, getBytes, List.length_cons, List.take_succ_cons,
      List.take_zero, List.drop_succ_cons, List.drop_zero]
    rw [if_pos (by omega)]
    simp only [exceptBindOk]
    split
    all_goals first
      | rfl
      | (rename_i tag heq
         simp only [valBE, List.foldl_cons, List.foldl_nil, Nat.zero_mul, Nat.zero_add] at heq
         omega)
  · intro fuel t rest h
    simp only [decodeValueB, getU8, getBytes, List.length_cons, List.take_succ_cons,
      List.take_zero, List.drop_succ_cons, List.drop_zero]
    rw [if_pos (by omega)]
    simp only [exceptBindOk]
    split
    all_goals first
      | rfl
      | (rename_i tag heq
         simp only [valBE, List.foldl_cons, List.foldl_nil, Nat.zero_mul, Nat.zero_add] at heq
         omega)
  · intro fuel t rest h
    simp only [decodeValueA, getU8, getBytes, List.length_cons, List.take_succ_cons,
      List.take_zero, List.drop_succ_cons, List.drop_zero]
    rw [if_pos (by omega)]
    simp only [exceptBindOk]
    split
    all_goals first
      | rfl
      | (rename_i tag heq
         simp only [valBE, List.foldl_cons, List.foldl_nil, Nat.zero_mul, Nat.zero_add] at heq
         omega)

/-- Witness for C9 at concrete inputs: key tag 2, value tag 12 for the
`message_codec.rs` decoder and value tag 6 for the `decoder.rs`
decoder. -/
theorem claim9_unknown_tag_is_fatal_witness :
    exceptOk (decodeKeyB [2]) = false ∧
      exceptOk (decodeValueB 1 [12]) = false ∧
      exceptOk (decodeValueA 1 [6]) = false :=
  ⟨claim9_unknown_tag_is_fatal.1 2 [] (by omega),
   claim9_unknown_tag_is_fatal.2.1 0 12 [] (by omega),
   claim9_unknown_tag_is_fatal.2.2 0 6 [] (Or.inl rfl)⟩

/-- C10 (confirmed): `read` is observationally pure on the segment's
persistent state.  For every segment state and offset — `Some`, `None`
and error alike — the call leaves both files' contents unchanged (only
handle cursor positions move), and hence leaves `size()` unchanged. -/
theorem claim10_read_does_not_modify_segment (s : FileSegment) (o : Nat) :
    (readStep s o).1.dat.contents = s.dat.contents ∧
      (readStep s o).1.idx.contents = s.idx.contents ∧
      (sizeStep (readStep s o).1).2 = (sizeStep s).2 := by
  obtain ⟨h1, h2⟩ := readStep_preserves s o
  refine ⟨h1, h2, ?_⟩
  show (readStep s o).1.idx.contents.length / 4 = s.idx.contents.length / 4
  rw [h2]
